import Mathlib

/-!
Shallow embedding of the eden on-disk Overlay store
(`eden/fs/inodes/Overlay.cpp`).

Bytes are modelled as natural numbers (kept below 256 by construction),
byte strings as `List Nat`, per-inode files as an association list from
inode number to file state, and each C++ throw site as a constructor of
`OverlayError` following the spec's error taxonomy (the C++ code throws
exceptions; the spec re-expresses them as result values).
-/

/-- Big-endian encoding of `v` into exactly `w` bytes
(`folly::io::Appender::writeBE`); overflow wraps mod `256 ^ w`. -/
def beBytes : Nat → Nat → List Nat
  | 0, _ => []
  | w + 1, v => beBytes w (v / 256) ++ [v % 256]

/-- Big-endian decoding of a byte list (`folly::io::Cursor::readBE`). -/
def beDecode (l : List Nat) : Nat :=
  l.foldl (fun a b => a * 256 + b) 0

theorem beBytes_length (w v : Nat) : (beBytes w v).length = w := by
  induction w generalizing v with
  | zero => rfl
  | succ w ih => simp [beBytes, ih]

theorem beDecode_append_singleton (l : List Nat) (b : Nat) :
    beDecode (l ++ [b]) = beDecode l * 256 + b := by
  simp [beDecode, List.foldl_append]

theorem beDecode_beBytes (w v : Nat) (h : v < 256 ^ w) :
    beDecode (beBytes w v) = v := by
  induction w generalizing v with
  | zero =>
    simp [beBytes, beDecode]
    omega
  | succ w ih =>
    have hdiv : v / 256 < 256 ^ w := by
      rw [Nat.div_lt_iff_lt_mul (by norm_num)]
      calc v < 256 ^ (w + 1) := h
        _ = 256 ^ w * 256 := by ring
    rw [beBytes, beDecode_append_singleton, ih _ hdiv]
    omega

/-- The hex digit table `hexdigit` from `formatSubdirPath`. -/
def hexdigit (i : Nat) : Char :=
  match i with
  | 0 => '0' | 1 => '1' | 2 => '2' | 3 => '3' | 4 => '4'
  | 5 => '5' | 6 => '6' | 7 => '7' | 8 => '8' | 9 => '9'
  | 10 => 'a' | 11 => 'b' | 12 => 'c' | 13 => 'd' | 14 => 'e' | _ => 'f'

/-- `formatSubdirPath`: the two-character shard directory name for an inode
number, using the low byte, high nibble first
(`hexdigit[(inode >> 4) & 0xf]`, `hexdigit[inode & 0xf]`). -/
def formatSubdirPath (inode : Nat) : String :=
  String.mk [hexdigit ((inode >>> 4) &&& 0xf), hexdigit (inode &&& 0xf)]

/-- `Overlay::getFilePath`: `<root>/<shard>/<decimal(inode)>` built from
`formatSubdirPath` and `folly::to<string>(inodeNumber)`. -/
def getFilePath (localDir : String) (inode : Nat) : String :=
  localDir ++ "/" ++ formatSubdirPath inode ++ "/" ++ Nat.repr inode

theorem shiftRight_four_and (n : Nat) : (n >>> 4) &&& 0xf = n % 256 / 16 := by
  rw [Nat.shiftRight_eq_div_pow, Nat.and_pow_two_sub_one_eq_mod _ 4]
  show n / 2 ^ 4 % 2 ^ 4 = n % 256 / 16
  omega

theorem and_fifteen (n : Nat) : n &&& 0xf = n % 256 % 16 := by
  rw [Nat.and_pow_two_sub_one_eq_mod _ 4]
  show n % 2 ^ 4 = n % 256 % 16
  omega

theorem formatSubdirPath_eq_low_byte_hex (n : Nat) :
    formatSubdirPath n =
      String.mk [hexdigit (n % 256 / 16), hexdigit (n % 256 % 16)] := by
  rw [formatSubdirPath, shiftRight_four_and, and_fifteen]

/-- C9: `file_path(n)` is total and deterministic (it is a function), equals
`<root>/<shard>/<decimal(n)>` where the shard is the two lowercase hex digits
of the low byte `n % 256` (high nibble first), and two inode numbers congruent
modulo 256 land in the same shard subdirectory. -/
theorem getFilePath_shard_decimal (root : String) (n : Nat) :
    getFilePath root n =
      root ++ "/" ++ String.mk [hexdigit (n % 256 / 16), hexdigit (n % 256 % 16)]
        ++ "/" ++ Nat.repr n
    ∧ formatSubdirPath n = formatSubdirPath (n % 256) := by
  constructor
  · rw [getFilePath, formatSubdirPath_eq_low_byte_hex]
  · rw [formatSubdirPath_eq_low_byte_hex, formatSubdirPath_eq_low_byte_hex]
    simp [Nat.mod_mod_of_dvd, Nat.mod_self]

/-- The 4-byte info-file magic `kInfoHeaderMagic` (`"\xed\xe0\x00\x01"`). -/
def kInfoHeaderMagic : List Nat := [0xed, 0xe0, 0x00, 0x01]

/-- `kOverlayVersion`: version number of the overlay directory format. -/
def kOverlayVersion : Nat := 1

/-- `kInfoHeaderSize = kInfoHeaderMagic.size() + sizeof(kOverlayVersion)`. -/
def kInfoHeaderSize : Nat := kInfoHeaderMagic.length + 4

/-- Modelled from the spec: `Overlay::kHeaderIdentifierDir`, declared in the
missing `Overlay.h`; the spec fixes an 8-byte ASCII identifier for directory
bodies: `"OVDR"` followed by four NUL bytes. -/
def kHeaderIdentifierDir : List Nat := [0x4f, 0x56, 0x44, 0x52, 0, 0, 0, 0]

/-- Modelled from the spec: `Overlay::kHeaderIdentifierFile`, declared in the
missing `Overlay.h`; the 8-byte ASCII identifier for file bodies
(`"OVFL"` followed by four NUL bytes), disjoint from the directory
identifier. -/
def kHeaderIdentifierFile : List Nat := [0x4f, 0x56, 0x46, 0x4c, 0, 0, 0, 0]

/-- `Overlay::kHeaderVersion`, declared in the missing `Overlay.h`;
the spec fixes the current entry-header version as 1. -/
def kHeaderVersion : Nat := 1

/-- Modelled from the spec: `Overlay::kHeaderLength`, declared in the missing
`Overlay.h`. The spec makes `L` an implementation constant that is at least
identifier + version + three 16-byte timestamps (60 bytes) plus zero padding;
we fix `L = 64`. -/
def kHeaderLength : Nat := 64

/-- `Overlay::createHeader`: identifier, big-endian version, then
`{sec, nsec}` big-endian u64 pairs for atime, ctime, mtime, zero-padded
to `kHeaderLength`. -/
def createHeader (identifier : List Nat) (version : Nat)
    (atime ctime mtime : Nat × Nat) : List Nat :=
  let core := identifier ++ beBytes 4 version ++
    beBytes 8 atime.1 ++ beBytes 8 atime.2 ++
    beBytes 8 ctime.1 ++ beBytes 8 ctime.2 ++
    beBytes 8 mtime.1 ++ beBytes 8 mtime.2
  core ++ List.replicate (kHeaderLength - core.length) 0

/-- The concrete directory-kind header written by `saveOverlayDir`
(zero timestamps). -/
def kDirHeader : List Nat :=
  createHeader kHeaderIdentifierDir kHeaderVersion (0, 0) (0, 0) (0, 0)

/-- The concrete file-kind header written by `addHeaderToOverlayFile`
(zero timestamps). -/
def kFileHeader : List Nat :=
  createHeader kHeaderIdentifierFile kHeaderVersion (0, 0) (0, 0) (0, 0)

theorem kDirHeader_length : kDirHeader.length = kHeaderLength := by decide

theorem kFileHeader_length : kFileHeader.length = kHeaderLength := by decide

/-- The abstract error taxonomy of spec section 7; each constructor stands for
one family of exceptions thrown by `Overlay.cpp` (`OutOfRange` stands for the
`std::out_of_range` thrown by folly range operations on short input, which the
spec taxonomy does not name). -/
inductive OverlayError where
  | LegacyFormat
  | CorruptInfo
  | TruncatedInfo
  | UnsupportedVersion
  | CorruptHeader
  | WrongKind
  | CorruptDir
  | AlreadyOpen
  | Exists
  | NotFound
  | OutOfRange
  | Io
deriving DecidableEq, Repr

/-- The wire form `overlay::OverlayEntry` from `overlay.thrift`:
`{mode: u32, inodeNumber: u64, hash: bytes}`. -/
structure OverlayEntry where
  mode : Nat
  inodeNumber : Nat
  hash : List Nat
deriving DecidableEq, Repr

/-- The wire form `overlay::OverlayDir`: the entry mapping, as the ordered
association list the `std::map<std::string, OverlayEntry>` iterates as. -/
abbrev OverlayDir := List (List Nat × OverlayEntry)

/-- The in-memory `TreeInode::Entry`: either materialized (carrying an
allocated inode number) or backed by a source-control hash. -/
inductive Entry where
  | materialized (mode : Nat) (inodeNumber : Nat)
  | hashBacked (mode : Nat) (hash : List Nat)
deriving DecidableEq, Repr

/-- The in-memory `TreeInode::Dir` entry mapping, as the ordered association
list its `std::map` iterates as. -/
abbrev Dir := List (List Nat × Entry)

/-- Modelled from the spec: the directory-body codec. The C++ uses thrift
`CompactSerializer` on the generated (not in `src/`) `overlay::OverlayDir`;
the spec allows any canonical structural serialization with bit-exact
round-trip. We use length-prefixed byte strings and fixed-width big-endian
integers. `encodeBytes` is a 4-byte length prefix followed by the bytes. -/
def encodeBytes (s : List Nat) : List Nat :=
  beBytes 4 s.length ++ s

/-- One wire entry: name, mode (u32), inodeNumber (u64), hash. -/
def encodeOverlayEntry (e : List Nat × OverlayEntry) : List Nat :=
  encodeBytes e.1 ++ beBytes 4 e.2.mode ++ beBytes 8 e.2.inodeNumber ++
    encodeBytes e.2.hash

/-- `CompactSerializer::serialize` of an `overlay::OverlayDir` under the
modelled codec: entry count then the entries in map order. -/
def serializeOverlayDir (od : OverlayDir) : List Nat :=
  beBytes 4 od.length ++ (od.map encodeOverlayEntry).foldr (· ++ ·) []

/-- Read a `w`-byte big-endian integer off the front of the input. -/
def parseBE (w : Nat) (l : List Nat) : Option (Nat × List Nat) :=
  if w ≤ l.length then some (beDecode (l.take w), l.drop w) else none

/-- Read a length-prefixed byte string off the front of the input. -/
def parseBytes (l : List Nat) : Option (List Nat × List Nat) :=
  match parseBE 4 l with
  | none => none
  | some (n, r) => if n ≤ r.length then some (r.take n, r.drop n) else none

/-- Read one wire entry off the front of the input. -/
def parseOverlayEntry (l : List Nat) :
    Option ((List Nat × OverlayEntry) × List Nat) :=
  match parseBytes l with
  | none => none
  | some (name, r1) =>
    match parseBE 4 r1 with
    | none => none
    | some (mode, r2) =>
      match parseBE 8 r2 with
      | none => none
      | some (ino, r3) =>
        match parseBytes r3 with
        | none => none
        | some (h, r4) => some ((name, ⟨mode, ino, h⟩), r4)

/-- Read `count` wire entries off the front of the input. -/
def parseOverlayEntries : Nat → List Nat → Option (OverlayDir × List Nat)
  | 0, l => some ([], l)
  | count + 1, l =>
    match parseOverlayEntry l with
    | none => none
    | some (e, r) =>
      match parseOverlayEntries count r with
      | none => none
      | some (es, r') => some (e :: es, r')

/-- Modelled from the spec: `CompactSerializer::deserialize` of an
`overlay::OverlayDir` (generated thrift code, not in `src/`). Per the spec,
decoding must reject duplicates of the same name. Trailing bytes after the
struct are ignored, as thrift does. -/
def deserializeDirBody (l : List Nat) : Option OverlayDir :=
  match parseBE 4 l with
  | none => none
  | some (count, r) =>
    match parseOverlayEntries count r with
    | none => none
    | some (es, _) =>
      if (es.map Prod.fst).Nodup then some es else none

theorem parseBE_beBytes (w v : Nat) (rest : List Nat) (h : v < 256 ^ w) :
    parseBE w (beBytes w v ++ rest) = some (v, rest) := by
  unfold parseBE
  rw [List.take_left' (beBytes_length w v), List.drop_left' (beBytes_length w v),
    beDecode_beBytes w v h]
  simp [beBytes_length]

theorem parseBytes_encodeBytes (s rest : List Nat) (h : s.length < 2 ^ 32) :
    parseBytes (encodeBytes s ++ rest) = some (s, rest) := by
  unfold parseBytes encodeBytes
  rw [List.append_assoc, parseBE_beBytes 4 s.length (s ++ rest) (by norm_num at h ⊢; omega)]
  simp

/-- Well-formedness of a wire entry: the C++ field types (`u32` length-prefixed
strings, `u32` mode, `u64` inodeNumber). -/
def OverlayEntryWF (e : List Nat × OverlayEntry) : Prop :=
  e.1.length < 2 ^ 32 ∧ e.2.mode < 2 ^ 32 ∧ e.2.inodeNumber < 2 ^ 64 ∧
    e.2.hash.length < 2 ^ 32

instance (e : List Nat × OverlayEntry) : Decidable (OverlayEntryWF e) := by
  unfold OverlayEntryWF
  infer_instance

theorem two_pow_32_eq : (2 : Nat) ^ 32 = 256 ^ 4 := by norm_num

theorem two_pow_64_eq : (2 : Nat) ^ 64 = 256 ^ 8 := by norm_num

theorem parseOverlayEntry_encode (e : List Nat × OverlayEntry)
    (rest : List Nat) (h : OverlayEntryWF e) :
    parseOverlayEntry (encodeOverlayEntry e ++ rest) = some (e, rest) := by
  obtain ⟨h1, h2, h3, h4⟩ := h
  have hm : e.2.mode < 256 ^ 4 := two_pow_32_eq ▸ h2
  have hi : e.2.inodeNumber < 256 ^ 8 := two_pow_64_eq ▸ h3
  simp only [parseOverlayEntry, encodeOverlayEntry, List.append_assoc,
    parseBytes_encodeBytes _ _ h1, parseBE_beBytes _ _ _ hm,
    parseBE_beBytes _ _ _ hi, parseBytes_encodeBytes _ _ h4]

theorem parseOverlayEntries_encode (od : OverlayDir) (rest : List Nat)
    (h : ∀ e ∈ od, OverlayEntryWF e) :
    parseOverlayEntries od.length
      ((od.map encodeOverlayEntry).foldr (· ++ ·) [] ++ rest) =
      some (od, rest) := by
  induction od with
  | nil => simp [parseOverlayEntries]
  | cons e es ih =>
    show parseOverlayEntries (es.length + 1) _ = _
    rw [List.map_cons, List.foldr_cons, List.append_assoc]
    simp only [parseOverlayEntries, parseOverlayEntry_encode e _ (h e (by simp)),
      ih (fun e' he' => h e' (by simp [he']))]

theorem deserializeDirBody_serialize (od : OverlayDir)
    (hwf : ∀ e ∈ od, OverlayEntryWF e) (hlen : od.length < 2 ^ 32)
    (hnodup : (od.map Prod.fst).Nodup) :
    deserializeDirBody (serializeOverlayDir od) = some od := by
  have h0 := parseOverlayEntries_encode od [] hwf
  rw [List.append_nil] at h0
  have hc : od.length < 256 ^ 4 := two_pow_32_eq ▸ hlen
  simp only [deserializeDirBody, serializeOverlayDir,
    parseBE_beBytes _ _ _ hc, h0]
  simp [hnodup]

/-- State of the per-inode path `<root>/<shard>/<decimal n>`: absent, a file
with a mode and byte contents, or a file on which I/O syscalls fail with an
errno other than `ENOENT` (the environment's fault injection for the "any
other OS error" paths). -/
inductive FileView where
  | missing
  | file (mode : Nat) (bytes : List Nat)
  | ioFail
deriving DecidableEq, Repr

/-- The sharded on-disk tree, keyed by inode number. The filename of key `n`
is `decimal(n)` in shard `formatSubdirPath n`. Keys absent from the list are
`missing`. -/
abbrev Fs := List (Nat × FileView)

def lookupFs : Fs → Nat → FileView
  | [], _ => .missing
  | kv :: rest, n => if kv.1 = n then kv.2 else lookupFs rest n

def eraseFs : Fs → Nat → Fs
  | [], _ => []
  | kv :: rest, n => if kv.1 = n then eraseFs rest n else kv :: eraseFs rest n

def setFs (fs : Fs) (n : Nat) (v : FileView) : Fs :=
  (n, v) :: eraseFs fs n

theorem lookupFs_setFs_self (fs : Fs) (n : Nat) (v : FileView) :
    lookupFs (setFs fs n v) n = v := by
  simp [lookupFs, setFs]

theorem lookupFs_eraseFs_self (fs : Fs) (n : Nat) :
    lookupFs (eraseFs fs n) n = .missing := by
  induction fs with
  | nil => rfl
  | cons kv rest ih =>
    by_cases hk : kv.1 = n
    · simp [eraseFs, hk, ih]
    · simp [eraseFs, lookupFs, hk, ih]

theorem lookupFs_eraseFs_ne (fs : Fs) (n m : Nat) (h : m ≠ n) :
    lookupFs (eraseFs fs n) m = lookupFs fs m := by
  induction fs with
  | nil => rfl
  | cons kv rest ih =>
    by_cases hk : kv.1 = n
    · rw [show lookupFs (kv :: rest) m = lookupFs rest m by
        simp [lookupFs, hk, Ne.symm h]]
      simp [eraseFs, hk, ih]
    · simp only [eraseFs, hk, if_false, lookupFs]
      by_cases hm : kv.1 = m
      · simp [lookupFs, hm]
      · simp [lookupFs, hm, ih]

theorem lookupFs_setFs_ne (fs : Fs) (n m : Nat) (v : FileView) (h : m ≠ n) :
    lookupFs (setFs fs n v) m = lookupFs fs m := by
  simp only [setFs, lookupFs, Ne.symm h, if_false]
  exact lookupFs_eraseFs_ne fs n m h

/-- `Overlay::deserializeOverlayDir`: read the per-inode file (absent file is
`none`, other read errors are `Io`), require at least `kHeaderLength` bytes
(`CorruptHeader`), compare the identifier against `kHeaderIdentifierDir`
(`WrongKind`), check the big-endian version against `kHeaderVersion`
(`UnsupportedVersion`), then decode the body past the header (`CorruptDir`).
The checks happen in exactly the order of the source. -/
def deserializeOverlayDir (fs : Fs) (inodeNumber : Nat) :
    Except OverlayError (Option OverlayDir) :=
  match lookupFs fs inodeNumber with
  | .missing => .ok none
  | .ioFail => .error .Io
  | .file _ serializedData =>
    if serializedData.length < kHeaderLength then .error .CorruptHeader
    else
      let header := serializedData.take kHeaderLength
      let contents := serializedData.drop kHeaderLength
      let identifier := header.take kHeaderIdentifierDir.length
      let ver := beDecode ((header.drop kHeaderIdentifierDir.length).take 4)
      if identifier ≠ kHeaderIdentifierDir then .error .WrongKind
      else if ver ≠ kHeaderVersion then .error .UnsupportedVersion
      else
        match deserializeDirBody contents with
        | none => .error .CorruptDir
        | some od => .ok (some od)

/-- The per-entry branch of `Overlay::loadOverlayDir`: an entry with
`inodeNumber == 0` is hash-backed, any other entry is materialized (its hash
bytes are never read). The empty-hash failure in the zero branch is modelled
from the spec: the `Hash` constructor (class not in `src/`) rejects a hash
that is not a well-formed raw hash, and the spec makes an I1 violation on
decode a `CorruptDir`. -/
def entryFromOverlay (value : OverlayEntry) : Except OverlayError Entry :=
  if value.inodeNumber = 0 then
    if value.hash = [] then .error .CorruptDir
    else .ok (.hashBacked value.mode value.hash)
  else .ok (.materialized value.mode value.inodeNumber)

/-- The entry-conversion loop of `Overlay::loadOverlayDir`. -/
def dirFromOverlay : OverlayDir → Except OverlayError Dir
  | [] => .ok []
  | (name, value) :: rest =>
    match entryFromOverlay value with
    | .error e => .error e
    | .ok ent =>
      match dirFromOverlay rest with
      | .error e => .error e
      | .ok d => .ok ((name, ent) :: d)

/-- `Overlay::loadOverlayDir`: deserialize, then translate each wire entry to
a `TreeInode::Entry`. -/
def loadOverlayDir (fs : Fs) (inodeNumber : Nat) :
    Except OverlayError (Option Dir) :=
  match deserializeOverlayDir fs inodeNumber with
  | .error e => .error e
  | .ok none => .ok none
  | .ok (some dir) =>
    match dirFromOverlay dir with
    | .error e => .error e
    | .ok result => .ok (some result)

/-- The per-entry branch of `Overlay::saveOverlayDir`: a materialized entry
writes its inode number and an empty hash, a hash-backed entry writes inode
number 0 and its raw hash bytes. -/
def overlayEntryOfEntry : Entry → OverlayEntry
  | .materialized mode ino => ⟨mode, ino, []⟩
  | .hashBacked mode h => ⟨mode, 0, h⟩

/-- `Overlay::saveOverlayDir`: translate the listing to its thrift form,
serialize, prepend a directory-kind header with zero timestamps, and replace
the per-inode file atomically (`folly::writeFileAtomic`, which creates the
temp file with mode 0644). -/
def saveOverlayDir (fs : Fs) (inodeNumber : Nat) (dir : Dir) : Fs :=
  let odir : OverlayDir := dir.map (fun p => (p.1, overlayEntryOfEntry p.2))
  let serializedData := serializeOverlayDir odir
  setFs fs inodeNumber (.file 0o644 (kDirHeader ++ serializedData))

/-- `Overlay::removeOverlayData`: unlink the per-inode file; `ENOENT` is not
an error, any other unlink failure surfaces (as `Io`). -/
def removeOverlayData (fs : Fs) (inodeNumber : Nat) :
    Except OverlayError Fs :=
  match lookupFs fs inodeNumber with
  | .ioFail => .error .Io
  | _ => .ok (eraseFs fs inodeNumber)

/-- `Overlay::openFile`: open the file read/write, read all contents, clamp to
the first `kHeaderLength` bytes (`folly::StringPiece` subpiece clamps), fail
like `StringPiece::advance` / `Cursor::readBE` (`std::out_of_range`, modelled
`OutOfRange`) when fewer than identifier+version bytes are present, then
compare identifier (`WrongKind`) and version (`UnsupportedVersion`). There is
no minimum-length check against `kHeaderLength`. Returns the handle
`(inode, offset)`; the read loop leaves the descriptor offset at end of
file. -/
def openFile (fs : Fs) (inodeNumber : Nat) :
    Except OverlayError (Nat × Nat) :=
  match lookupFs fs inodeNumber with
  | .missing => .error .NotFound
  | .ioFail => .error .Io
  | .file _ contents =>
    let header := contents.take kHeaderLength
    if header.length < kHeaderIdentifierFile.length then .error .OutOfRange
    else
      let identifier := header.take kHeaderIdentifierFile.length
      let rest := header.drop kHeaderIdentifierFile.length
      if rest.length < 4 then .error .OutOfRange
      else
        let ver := beDecode (rest.take 4)
        if identifier ≠ kHeaderIdentifierFile then .error .WrongKind
        else if ver ≠ kHeaderVersion then .error .UnsupportedVersion
        else .ok (inodeNumber, contents.length)

/-- `Overlay::createOverlayFile` (with `addHeaderToOverlayFile` inlined):
exclusive-create of the per-inode file with mode 0600 (`Exists` if the path
is already present), write the file-kind header with zero timestamps
(`writeOk` is the environment's injection of write failure), and on failure
after creation unlink the partial file (`SCOPE_FAIL`). Returns the handle
`(inode, offset)` — the offset sits right past the header — paired with the
final filesystem state. -/
def createOverlayFile (fs : Fs) (childNumber : Nat) (writeOk : Bool) :
    Except OverlayError (Nat × Nat) × Fs :=
  match lookupFs fs childNumber with
  | .file _ _ => (.error .Exists, fs)
  | .ioFail => (.error .Exists, fs)
  | .missing =>
    if writeOk then
      (.ok (childNumber, kFileHeader.length),
        setFs fs childNumber (.file 0o600 kFileHeader))
    else
      (.error .Io, eraseFs (setFs fs childNumber (.file 0o600 [])) childNumber)

/-- `FUSE_ROOT_ID`: the root inode number. -/
def kRootInode : Nat := 1

/-- `mode_to_dtype(mode) == dtype_t::Dir`: the file-type bits
(`mode & S_IFMT`, shifted) equal `DT_DIR` (4). -/
def isDirMode (mode : Nat) : Bool :=
  ((mode &&& 0o170000) >>> 12) == 4

/-- The depth-first loop of `Overlay::getMaxRecordedInode`: pop an inode, load
its directory (a missing file prunes the subtree, a corrupt one propagates),
take the maximum over nonzero entry inode numbers and push entries whose mode
is a directory. The C++ loop has no bound; `fuel` only truncates executions
that would not terminate (a cyclic overlay), and every terminating execution
is reproduced for all sufficiently large fuel. -/
def walkOverlay (fs : Fs) : Nat → List Nat → Nat → Except OverlayError Nat
  | _, [], maxInode => .ok maxInode
  | 0, _ :: _, maxInode => .ok maxInode
  | fuel + 1, dirInodeNumber :: toProcess, maxInode =>
    match deserializeOverlayDir fs dirInodeNumber with
    | .error e => .error e
    | .ok none => walkOverlay fs fuel toProcess maxInode
    | .ok (some dir) =>
      let st := dir.foldl
        (fun (st : Nat × List Nat) p =>
          if p.2.inodeNumber = 0 then st
          else
            (max st.1 p.2.inodeNumber,
              if isDirMode p.2.mode then p.2.inodeNumber :: st.2 else st.2))
        (maxInode, toProcess)
      walkOverlay fs fuel st.2 st.1

/-- The shard scan of `Overlay::getMaxRecordedInode`: for each of the 256
shard subdirectories, fold the maximum over the inode numbers of the files
present there. Every file the modelled operations create has the decimal
rendering of its key as its filename, which `folly::tryTo` parses back to the
key, so the scan reads the keys directly; names that do not parse cannot
arise here. -/
def scanShardMax (fs : Fs) (start : Nat) : Nat :=
  (List.range 256).foldl
    (fun maxInode n =>
      fs.foldl
        (fun m kv =>
          if kv.2 ≠ FileView.missing ∧ kv.1 % 256 = n then max m kv.1 else m)
        maxInode)
    start

/-- `Overlay::getMaxRecordedInode`: start from the root inode, walk the tree,
then scan the shard subdirectories for orphans. -/
def getMaxRecordedInode (fs : Fs) (fuel : Nat) : Except OverlayError Nat :=
  match walkOverlay fs fuel [kRootInode] kRootInode with
  | .error e => .error e
  | .ok maxInode => .ok (scanShardMax fs maxInode)

/-- A mutating call against the overlay (the operations that create or
destroy per-inode files). -/
inductive Op where
  | saveDir (inodeNumber : Nat) (dir : Dir)
  | createFile (inodeNumber : Nat)
  | removeData (inodeNumber : Nat)
deriving DecidableEq, Repr

/-- Apply one overlay call to the on-disk state. A failed call leaves the
state as the operation itself leaves it (`createOverlayFile` already models
its own cleanup; a failed remove changes nothing). -/
def runOp (fs : Fs) : Op → Fs
  | .saveDir n d => saveOverlayDir fs n d
  | .createFile n => (createOverlayFile fs n true).2
  | .removeData n =>
    match removeOverlayData fs n with
    | .ok fs' => fs'
    | .error _ => fs

/-- Run a call history from a starting state. -/
def runOps (fs : Fs) (ops : List Op) : Fs :=
  ops.foldl runOp fs

/-- `op` passes inode `n` to `save_dir` or `create_file`. -/
def opRecords : Op → Nat → Prop
  | .saveDir m _, n => m = n
  | .createFile m, n => m = n
  | .removeData _, _ => False

instance (op : Op) (n : Nat) : Decidable (opRecords op n) := by
  cases op <;> unfold opRecords <;> infer_instance

theorem le_foldl_of_mono {α : Type} (f : Nat → α → Nat)
    (hf : ∀ m a, m ≤ f m a) (l : List α) (m : Nat) : m ≤ l.foldl f m := by
  induction l generalizing m with
  | nil => exact Nat.le_refl m
  | cons b rest ih => exact Nat.le_trans (hf m b) (ih (f m b))

theorem target_le_foldl {α : Type} (f : Nat → α → Nat)
    (hf : ∀ m a, m ≤ f m a) (t : Nat) (a : α) (ht : ∀ m, t ≤ f m a)
    (l : List α) (m : Nat) (ha : a ∈ l) : t ≤ l.foldl f m := by
  induction l generalizing m with
  | nil => cases ha
  | cons b rest ih =>
    rcases List.mem_cons.mp ha with rfl | hmem
    · exact Nat.le_trans (ht m) (le_foldl_of_mono f hf rest (f m a))
    · exact ih (f m b) hmem

theorem exists_mem_of_lookupFs (fs : Fs) (n : Nat)
    (h : lookupFs fs n ≠ .missing) :
    ∃ v, (n, v) ∈ fs ∧ v ≠ FileView.missing := by
  induction fs with
  | nil => exact absurd rfl h
  | cons kv rest ih =>
    by_cases hk : kv.1 = n
    · rw [lookupFs, if_pos hk] at h
      have he : (n, kv.2) = kv := by rw [← hk]
      exact ⟨kv.2, by rw [he]; exact List.mem_cons_self kv rest, h⟩
    · rw [lookupFs, if_neg hk] at h
      obtain ⟨v, hv, hvm⟩ := ih h
      exact ⟨v, List.mem_cons_of_mem _ hv, hvm⟩

theorem scanShardMax_ge (fs : Fs) (n start : Nat)
    (h : lookupFs fs n ≠ .missing) : n ≤ scanShardMax fs start := by
  obtain ⟨v, hv, hvm⟩ := exists_mem_of_lookupFs fs n h
  unfold scanShardMax
  refine target_le_foldl _ ?mono n (n % 256) ?tgt _ start ?memrange
  case mono =>
    intro m s
    exact le_foldl_of_mono _ (fun m' kv => by split <;> omega) fs m
  case tgt =>
    intro m
    refine target_le_foldl _ (fun m' kv => by split <;> omega)
      n (n, v) ?_ fs m ?_
    · intro m'
      rw [if_pos ⟨hvm, rfl⟩]
      omega
    · exact hv
  case memrange =>
    exact List.mem_range.mpr (Nat.mod_lt n (by norm_num))

theorem getMaxRecordedInode_ge_present (fs : Fs) (fuel n m : Nat)
    (hn : lookupFs fs n ≠ .missing)
    (hm : getMaxRecordedInode fs fuel = .ok m) : n ≤ m := by
  unfold getMaxRecordedInode at hm
  cases hw : walkOverlay fs fuel [kRootInode] kRootInode with
  | error e => rw [hw] at hm; cases hm
  | ok mx =>
    rw [hw] at hm
    cases hm
    exact scanShardMax_ge fs n mx hn

theorem present_after_runOp (fs : Fs) (op : Op) (n : Nat)
    (h : opRecords op n) : lookupFs (runOp fs op) n ≠ .missing := by
  cases op with
  | saveDir m d =>
    cases h
    rw [runOp, saveOverlayDir, lookupFs_setFs_self]
    intro hc
    cases hc
  | createFile m =>
    cases h
    rw [runOp, createOverlayFile]
    cases hl : lookupFs fs n with
    | missing =>
      show lookupFs (setFs fs n (FileView.file 0o600 kFileHeader)) n ≠
        FileView.missing
      rw [lookupFs_setFs_self]
      intro hc
      cases hc
    | file mode bytes =>
      rw [hl]
      intro hc
      cases hc
    | ioFail =>
      rw [hl]
      intro hc
      cases hc
  | removeData m => cases h

theorem present_after_step (fs : Fs) (op : Op) (n : Nat)
    (h : lookupFs fs n ≠ .missing) (hop : op ≠ .removeData n) :
    lookupFs (runOp fs op) n ≠ .missing := by
  cases op with
  | saveDir m d =>
    by_cases hm : m = n
    · subst hm
      exact present_after_runOp fs (.saveDir m d) m rfl
    · rw [runOp, saveOverlayDir, lookupFs_setFs_ne _ _ _ _ (fun hc => hm hc.symm)]
      exact h
  | createFile m =>
    by_cases hm : m = n
    · subst hm
      exact present_after_runOp fs (.createFile m) m rfl
    · rw [runOp, createOverlayFile]
      cases hl : lookupFs fs m with
      | missing =>
        simp only [if_pos]
        rw [lookupFs_setFs_ne _ _ _ _ (fun hc => hm hc.symm)]
        exact h
      | file mode bytes => exact h
      | ioFail => exact h
  | removeData m =>
    have hm : m ≠ n := fun hc => hop (by rw [hc])
    rw [runOp, removeOverlayData]
    cases hl : lookupFs fs m with
    | missing =>
      rw [lookupFs_eraseFs_ne _ _ _ (fun hc => hm hc.symm)]
      exact h
    | file mode bytes =>
      rw [lookupFs_eraseFs_ne _ _ _ (fun hc => hm hc.symm)]
      exact h
    | ioFail => exact h

theorem present_preserved (fs : Fs) (n : Nat) (ops : List Op)
    (h : lookupFs fs n ≠ .missing)
    (hops : ∀ op ∈ ops, op ≠ Op.removeData n) :
    lookupFs (runOps fs ops) n ≠ .missing := by
  induction ops generalizing fs with
  | nil => exact h
  | cons op rest ih =>
    rw [runOps, List.foldl_cons]
    exact ih (runOp fs op)
      (present_after_step fs op n h (hops op (List.mem_cons_self op rest)))
      (fun op' hop' => hops op' (List.mem_cons_of_mem op hop'))

/-- C2 (amended): for every inode number `n` passed to `save_dir` or
`create_file` at some point of the call history and not followed by a
`remove(n)`, `max_recorded_inode()` computed on the resulting overlay — the
root-down tree walk over materialized entry inode numbers followed by the
per-shard filename scan — returns a value greater than or equal to `n`
whenever it returns a value. -/
theorem getMaxRecordedInode_ge_recorded (fs0 : Fs) (ops : List Op)
    (n fuel m : Nat)
    (hrec : ∃ pre op post, ops = pre ++ op :: post ∧ opRecords op n ∧
      ∀ op' ∈ post, op' ≠ Op.removeData n)
    (hm : getMaxRecordedInode (runOps fs0 ops) fuel = .ok m) :
    n ≤ m := by
  obtain ⟨pre, op, post, rfl, hop, hpost⟩ := hrec
  rw [show runOps fs0 (pre ++ op :: post) =
      runOps (runOp (runOps fs0 pre) op) post by
    simp [runOps, List.foldl_append]] at hm
  exact getMaxRecordedInode_ge_present _ fuel n m
    (present_preserved _ n post (present_after_runOp _ op n hop) hpost) hm

set_option maxRecDepth 100000 in
/-- C2 (counterexample): on a fresh overlay, `save_dir(5, {})` followed by
`remove(5)` leaves no record of inode 5 anywhere, and the scan returns the
root inode 1 < 5, although 5 was passed to `save_dir` since the overlay was
created. -/
theorem getMaxRecordedInode_forgets_removed :
    getMaxRecordedInode
        (runOps [] [Op.saveDir 5 [], Op.removeData 5]) 4 = .ok 1 ∧
      ¬ (5 ≤ 1) :=
  ⟨rfl, by decide⟩

set_option maxRecDepth 100000 in
/-- Witness for C2 (amended): `save_dir(5, {})` on a fresh overlay with no
later remove; the scan finds 5. -/
theorem getMaxRecordedInode_ge_recorded_witness :
    getMaxRecordedInode (runOps [] [Op.saveDir 5 []]) 4 = .ok 5 ∧ 5 ≤ 5 := by
  refine ⟨rfl, ?_⟩
  exact getMaxRecordedInode_ge_recorded [] [Op.saveDir 5 []] 5 4 5
    ⟨[], Op.saveDir 5 [], [], rfl, rfl, by intro op' hop'; cases hop'⟩ rfl

/-- Invariant I1 for one in-memory entry: a materialized entry carries a
nonzero inode number, a hash-backed entry a non-empty hash. -/
def EntryI1 : Entry → Prop
  | .materialized _ ino => ino ≠ 0
  | .hashBacked _ h => h ≠ []

instance (e : Entry) : Decidable (EntryI1 e) := by
  cases e <;> unfold EntryI1 <;> infer_instance

/-- Invariant I1 for a directory listing. -/
def DirI1 (d : Dir) : Prop := ∀ p ∈ d, EntryI1 p.2

instance (d : Dir) : Decidable (DirI1 d) := by
  unfold DirI1
  infer_instance

/-- C++ typing bounds for one in-memory entry (`mode_t` is `u32`,
`fuse_ino_t` is `u64`, string and hash lengths fit `u32`). -/
def EntryBounds : Entry → Prop
  | .materialized mode ino => mode < 2 ^ 32 ∧ ino < 2 ^ 64
  | .hashBacked mode h => mode < 2 ^ 32 ∧ h.length < 2 ^ 32

instance (e : Entry) : Decidable (EntryBounds e) := by
  cases e <;> unfold EntryBounds <;> infer_instance

/-- A directory listing as the C++ holds it: a `std::map` (distinct names),
with every field within its C++ integer type. -/
def DirWF (d : Dir) : Prop :=
  d.length < 2 ^ 32 ∧ (∀ p ∈ d, p.1.length < 2 ^ 32 ∧ EntryBounds p.2) ∧
    (d.map Prod.fst).Nodup

instance (d : Dir) : Decidable (DirWF d) := by
  unfold DirWF
  infer_instance

theorem overlayEntryWF_of_entry (p : List Nat × Entry)
    (h1 : p.1.length < 2 ^ 32) (h2 : EntryBounds p.2) :
    OverlayEntryWF (p.1, overlayEntryOfEntry p.2) := by
  cases hp : p.2 with
  | materialized mode ino =>
    rw [hp] at h2
    obtain ⟨hm, hi⟩ := h2
    exact ⟨h1, hm, hi, by simp [overlayEntryOfEntry]⟩
  | hashBacked mode hsh =>
    rw [hp] at h2
    obtain ⟨hm, hh⟩ := h2
    exact ⟨h1, hm, by simp [overlayEntryOfEntry], hh⟩

theorem entryFromOverlay_of_entry (e : Entry) (h : EntryI1 e) :
    entryFromOverlay (overlayEntryOfEntry e) = .ok e := by
  cases e with
  | materialized mode ino =>
    have hi : ino ≠ 0 := h
    simp [overlayEntryOfEntry, entryFromOverlay, hi]
  | hashBacked mode hsh =>
    have hh : hsh ≠ [] := h
    simp [overlayEntryOfEntry, entryFromOverlay, hh]

theorem dirFromOverlay_map (d : Dir) (h : DirI1 d) :
    dirFromOverlay (d.map (fun p => (p.1, overlayEntryOfEntry p.2))) =
      .ok d := by
  induction d with
  | nil => rfl
  | cons p rest ih =>
    have hrest : DirI1 rest := fun q hq => h q (List.mem_cons_of_mem p hq)
    rw [List.map_cons]
    show dirFromOverlay ((p.1, overlayEntryOfEntry p.2) :: _) = _
    rw [dirFromOverlay, entryFromOverlay_of_entry p.2 (h p (List.mem_cons_self p rest)), ih hrest]

/-- Reading back a file whose bytes are `kDirHeader` followed by a body:
the header passes all three checks and the body is handed to the
deserializer. -/
theorem deserializeOverlayDir_dir_header (fs : Fs) (n : Nat)
    (mode : Nat) (body : List Nat)
    (hl : lookupFs fs n = .file mode (kDirHeader ++ body)) :
    deserializeOverlayDir fs n =
      match deserializeDirBody body with
      | none => .error .CorruptDir
      | some od => .ok (some od) := by
  simp only [deserializeOverlayDir, hl]
  rw [if_neg (by rw [List.length_append, kDirHeader_length]; omega)]
  rw [List.take_left' kDirHeader_length, List.drop_left' kDirHeader_length]
  rw [if_neg (by decide), if_neg (by decide)]

/-- C1: for every inode number `n` and directory listing `d` satisfying
invariant I1 (every entry carries exactly one of a nonzero inode number or a
non-empty hash; the listing is a map with distinct names and C++-typed
fields), `load_dir(n)` right after `save_dir(n, d)` returns exactly the
mapping `d`: same names, and per name the same mode and the same
inode-or-hash form. -/
theorem loadOverlayDir_after_saveOverlayDir (fs : Fs) (n : Nat) (d : Dir)
    (hI1 : DirI1 d) (hWF : DirWF d) :
    loadOverlayDir (saveOverlayDir fs n d) n = .ok (some d) := by
  obtain ⟨hlen, hfields, hnodup⟩ := hWF
  have hwf : ∀ e ∈ d.map (fun p => (p.1, overlayEntryOfEntry p.2)),
      OverlayEntryWF e := by
    intro e he
    obtain ⟨p, hp, rfl⟩ := List.mem_map.mp he
    exact overlayEntryWF_of_entry p (hfields p hp).1 (hfields p hp).2
  have hodlen :
      (d.map (fun p => (p.1, overlayEntryOfEntry p.2))).length < 2 ^ 32 := by
    simpa using hlen
  have hodnodup :
      ((d.map (fun p => (p.1, overlayEntryOfEntry p.2))).map Prod.fst).Nodup := by
    rw [List.map_map]
    exact hnodup
  have hbody := deserializeDirBody_serialize _ hwf hodlen hodnodup
  have hlook : lookupFs (saveOverlayDir fs n d) n =
      .file 0o644 (kDirHeader ++
        serializeOverlayDir (d.map (fun p => (p.1, overlayEntryOfEntry p.2)))) := by
    rw [saveOverlayDir, lookupFs_setFs_self]
  have hdes : deserializeOverlayDir (saveOverlayDir fs n d) n =
      .ok (some (d.map (fun p => (p.1, overlayEntryOfEntry p.2)))) := by
    rw [deserializeOverlayDir_dir_header _ n 0o644 _ hlook, hbody]
  simp only [loadOverlayDir, hdes, dirFromOverlay_map d hI1]

/-- A concrete two-entry listing: `"a"` hash-backed by a 20-byte hash,
`"b"` materialized as inode 3. -/
def cDir : Dir :=
  [([0x61], Entry.hashBacked 0o100644 (List.replicate 20 0xaa)),
   ([0x62], Entry.materialized 0o40755 3)]

/-- Witness for C1: the round-trip at inode 2 with the concrete listing. -/
theorem loadOverlayDir_after_saveOverlayDir_witness :
    loadOverlayDir (saveOverlayDir [] 2 cDir) 2 = .ok (some cDir) :=
  loadOverlayDir_after_saveOverlayDir [] 2 cDir (by decide) (by decide)

theorem kHeaderIdentifierDir_len : kHeaderIdentifierDir.length = 8 := rfl

theorem kHeaderIdentifierFile_len : kHeaderIdentifierFile.length = 8 := rfl

/-- The header checks of `deserializeOverlayDir` on an arbitrary file, in
source order: length, identifier, version, body. -/
theorem deserializeOverlayDir_file (fs : Fs) (n mode : Nat)
    (bytes : List Nat) (hl : lookupFs fs n = .file mode bytes) :
    deserializeOverlayDir fs n =
      if bytes.length < kHeaderLength then .error .CorruptHeader
      else if bytes.take 8 ≠ kHeaderIdentifierDir then .error .WrongKind
      else if beDecode ((bytes.drop 8).take 4) ≠ kHeaderVersion then
        .error .UnsupportedVersion
      else
        match deserializeDirBody (bytes.drop kHeaderLength) with
        | none => .error .CorruptDir
        | some od => .ok (some od) := by
  simp only [deserializeOverlayDir, hl]
  by_cases hlen : bytes.length < kHeaderLength
  · rw [if_pos hlen, if_pos hlen]
  · rw [if_neg hlen, if_neg hlen]
    have hid : (bytes.take kHeaderLength).take kHeaderIdentifierDir.length =
        bytes.take 8 := by
      rw [kHeaderIdentifierDir_len, List.take_take]
      norm_num [kHeaderLength]
    have hver :
        ((bytes.take kHeaderLength).drop kHeaderIdentifierDir.length).take 4 =
          (bytes.drop 8).take 4 := by
      rw [kHeaderIdentifierDir_len, List.drop_take, List.take_take]
      norm_num [kHeaderLength]
    simp only [hid, hver]

/-- The header checks of `openFile` on an arbitrary file: no minimum-length
check against `kHeaderLength`; fewer than 12 bytes fail out-of-range,
otherwise identifier then version are checked and the handle is returned. -/
theorem openFile_file (fs : Fs) (n mode : Nat) (bytes : List Nat)
    (hl : lookupFs fs n = .file mode bytes) :
    openFile fs n =
      if bytes.length < 12 then .error .OutOfRange
      else if bytes.take 8 ≠ kHeaderIdentifierFile then .error .WrongKind
      else if beDecode ((bytes.drop 8).take 4) ≠ kHeaderVersion then
        .error .UnsupportedVersion
      else .ok (n, bytes.length) := by
  simp only [openFile, hl, kHeaderIdentifierFile_len]
  have htl : (bytes.take kHeaderLength).length = min kHeaderLength bytes.length :=
    List.length_take _ _
  by_cases h12 : bytes.length < 12
  · rw [if_pos h12]
    by_cases h8 : (bytes.take kHeaderLength).length < 8
    · rw [if_pos h8]
    · rw [if_neg h8, if_pos (by rw [List.length_drop, htl]; rw [htl] at h8; unfold kHeaderLength at *; omega)]
  · rw [if_neg h12]
    rw [if_neg (by rw [htl]; unfold kHeaderLength; omega)]
    rw [if_neg (by rw [List.length_drop, htl]; unfold kHeaderLength; omega)]
    have hid : (bytes.take kHeaderLength).take 8 = bytes.take 8 := by
      rw [List.take_take]
      norm_num [kHeaderLength]
    have hver : ((bytes.take kHeaderLength).drop 8).take 4 =
        (bytes.drop 8).take 4 := by
      rw [List.drop_take, List.take_take]
      norm_num [kHeaderLength]
    simp only [hid, hver]

set_option maxRecDepth 100000 in
/-- C3 (counterexample): `open_file` does not fail `CorruptHeader` on a file
shorter than `L`: a 12-byte file holding just the file identifier and version
opens successfully, so the claim as stated fails for `open_file`. -/
theorem openFile_short_file_counterexample :
    (kHeaderIdentifierFile ++ beBytes 4 kHeaderVersion).length < kHeaderLength ∧
    openFile
        [(7, FileView.file 0o600
          (kHeaderIdentifierFile ++ beBytes 4 kHeaderVersion))] 7 =
      .ok (7, 12) := by
  exact ⟨by decide, by rfl⟩

set_option maxRecDepth 100000 in
/-- C3 (amended): for `load_dir`, header decoding fails `CorruptHeader` when
the file holds fewer than `L` bytes, `WrongKind` when the identifier is not
the directory identifier, and `UnsupportedVersion` when the big-endian
version is not 1, in that order. `open_file` performs no length check against
`L`: a file of fewer than 12 bytes fails with an out-of-range error, and a
file of at least 12 bytes is checked only for the file identifier
(`WrongKind`) and version (`UnsupportedVersion`) and otherwise opens even
when shorter than `L`. In particular `load_dir(n)` after `create_file(n)`
fails `WrongKind`. -/
theorem header_decoding_amended :
    (∀ (fs : Fs) (n mode : Nat) (bytes : List Nat),
      lookupFs fs n = .file mode bytes → bytes.length < kHeaderLength →
      deserializeOverlayDir fs n = .error .CorruptHeader) ∧
    (∀ (fs : Fs) (n mode : Nat) (bytes : List Nat),
      lookupFs fs n = .file mode bytes → kHeaderLength ≤ bytes.length →
      bytes.take 8 ≠ kHeaderIdentifierDir →
      deserializeOverlayDir fs n = .error .WrongKind) ∧
    (∀ (fs : Fs) (n mode : Nat) (bytes : List Nat),
      lookupFs fs n = .file mode bytes → kHeaderLength ≤ bytes.length →
      bytes.take 8 = kHeaderIdentifierDir →
      beDecode ((bytes.drop 8).take 4) ≠ kHeaderVersion →
      deserializeOverlayDir fs n = .error .UnsupportedVersion) ∧
    (∀ (fs : Fs) (n mode : Nat) (bytes : List Nat),
      lookupFs fs n = .file mode bytes → bytes.length < 12 →
      openFile fs n = .error .OutOfRange) ∧
    (∀ (fs : Fs) (n mode : Nat) (bytes : List Nat),
      lookupFs fs n = .file mode bytes → 12 ≤ bytes.length →
      bytes.take 8 ≠ kHeaderIdentifierFile →
      openFile fs n = .error .WrongKind) ∧
    (∀ (fs : Fs) (n mode : Nat) (bytes : List Nat),
      lookupFs fs n = .file mode bytes → 12 ≤ bytes.length →
      bytes.take 8 = kHeaderIdentifierFile →
      beDecode ((bytes.drop 8).take 4) ≠ kHeaderVersion →
      openFile fs n = .error .UnsupportedVersion) ∧
    (∀ (fs : Fs) (n mode : Nat) (bytes : List Nat),
      lookupFs fs n = .file mode bytes → 12 ≤ bytes.length →
      bytes.take 8 = kHeaderIdentifierFile →
      beDecode ((bytes.drop 8).take 4) = kHeaderVersion →
      openFile fs n = .ok (n, bytes.length)) ∧
    (∀ (fs : Fs) (n : Nat),
      lookupFs fs n = .missing →
      loadOverlayDir (createOverlayFile fs n true).2 n =
        .error .WrongKind) := by
  refine ⟨?_, ?_, ?_, ?_, ?_, ?_, ?_, ?_⟩
  · intro fs n mode bytes hl hlen
    rw [deserializeOverlayDir_file fs n mode bytes hl, if_pos hlen]
  · intro fs n mode bytes hl hlen hid
    rw [deserializeOverlayDir_file fs n mode bytes hl,
      if_neg (by omega), if_pos hid]
  · intro fs n mode bytes hl hlen hid hver
    rw [deserializeOverlayDir_file fs n mode bytes hl,
      if_neg (by omega), if_neg (by simp [hid]), if_pos hver]
  · intro fs n mode bytes hl hlen
    rw [openFile_file fs n mode bytes hl, if_pos hlen]
  · intro fs n mode bytes hl hlen hid
    rw [openFile_file fs n mode bytes hl, if_neg (by omega), if_pos hid]
  · intro fs n mode bytes hl hlen hid hver
    rw [openFile_file fs n mode bytes hl, if_neg (by omega),
      if_neg (by simp [hid]), if_pos hver]
  · intro fs n mode bytes hl hlen hid hver
    rw [openFile_file fs n mode bytes hl, if_neg (by omega),
      if_neg (by simp [hid]), if_neg (by simp [hver])]
  · intro fs n hmiss
    have h2 : lookupFs (createOverlayFile fs n true).2 n =
        .file 0o600 kFileHeader := by
      rw [createOverlayFile, hmiss]
      show lookupFs (setFs fs n (FileView.file 0o600 kFileHeader)) n = _
      exact lookupFs_setFs_self fs n _
    have hdes := deserializeOverlayDir_file _ n 0o600 kFileHeader h2
    rw [if_neg (by decide), if_pos (by decide)] at hdes
    simp only [loadOverlayDir, hdes]

/-- Witness for C3 (amended): a 3-byte file fails `CorruptHeader` under
`load_dir`; a 12-byte file with a junk identifier fails `WrongKind` under
`open_file`; and `load_dir(10)` right after `create_file(10)` on a fresh
overlay fails `WrongKind`. -/
theorem header_decoding_amended_witness :
    deserializeOverlayDir [(3, FileView.file 0o600 [1, 2, 3])] 3 =
        .error .CorruptHeader ∧
    openFile [(7, FileView.file 0o600
        [9, 9, 9, 9, 9, 9, 9, 9, 0, 0, 0, 1])] 7 = .error .WrongKind ∧
    loadOverlayDir (createOverlayFile [] 10 true).2 10 =
        .error .WrongKind := by
  refine ⟨?_, ?_, ?_⟩
  · exact header_decoding_amended.1 _ 3 0o600 [1, 2, 3] rfl (by decide)
  · exact header_decoding_amended.2.2.2.2.1 _ 7 0o600
      [9, 9, 9, 9, 9, 9, 9, 9, 0, 0, 0, 1] rfl (by decide) (by decide)
  · exact header_decoding_amended.2.2.2.2.2.2.2 [] 10 rfl

theorem entryFromOverlay_bad (value : OverlayEntry)
    (hz : value.inodeNumber = 0) (hh : value.hash = []) :
    entryFromOverlay value = .error .CorruptDir := by
  unfold entryFromOverlay
  rw [if_pos hz, if_pos hh]

theorem entryFromOverlay_error_eq (value : OverlayEntry) (e : OverlayError)
    (h : entryFromOverlay value = .error e) : e = .CorruptDir := by
  unfold entryFromOverlay at h
  split_ifs at h
  all_goals cases h
  all_goals rfl

theorem dirFromOverlay_error_of_bad (od : OverlayDir)
    (h : ∃ p ∈ od, p.2.inodeNumber = 0 ∧ p.2.hash = []) :
    dirFromOverlay od = .error .CorruptDir := by
  induction od with
  | nil =>
    obtain ⟨p, hp, _⟩ := h
    cases hp
  | cons q rest ih =>
    obtain ⟨name, value⟩ := q
    simp only [dirFromOverlay]
    cases he : entryFromOverlay value with
    | error e => rw [entryFromOverlay_error_eq value e he]
    | ok ent =>
      obtain ⟨p, hp, hz, hh⟩ := h
      rcases List.mem_cons.mp hp with rfl | hmem
      · rw [entryFromOverlay_bad value hz hh] at he
        cases he
      · rw [ih ⟨p, hmem, hz, hh⟩]

/-- `deserializeDirBody` on a serialized body whose entry names contain a
duplicate: the structural parse succeeds and the duplicate check rejects. -/
theorem deserializeDirBody_serialize_dup (od : OverlayDir)
    (hwf : ∀ e ∈ od, OverlayEntryWF e) (hlen : od.length < 2 ^ 32)
    (hdup : ¬ (od.map Prod.fst).Nodup) :
    deserializeDirBody (serializeOverlayDir od) = none := by
  have h0 := parseOverlayEntries_encode od [] hwf
  rw [List.append_nil] at h0
  have hc : od.length < 256 ^ 4 := two_pow_32_eq ▸ hlen
  simp only [deserializeDirBody, serializeOverlayDir,
    parseBE_beBytes _ _ _ hc, h0]
  simp [hdup]

set_option maxRecDepth 100000 in
/-- C4 (counterexample): a decoded entry with a nonzero inode number and a
non-empty hash violates I1, yet `load_dir` succeeds, reporting the entry as
materialized: decoding does not fail `CorruptDir` on every I1 violation. -/
theorem loadOverlayDir_accepts_I1_violation :
    (5 : Nat) ≠ 0 ∧ ([0xaa] : List Nat) ≠ [] ∧
    loadOverlayDir
        [(3, FileView.file 0o644 (kDirHeader ++ serializeOverlayDir
          [([0x61], OverlayEntry.mk 0o100644 5 [0xaa])]))] 3 =
      .ok (some [([0x61], Entry.materialized 0o100644 5)]) := by
  exact ⟨by decide, by decide, by rfl⟩

/-- C4 (amended): decoding in `load_dir` fails `CorruptDir` when the body
contains two entries with the same name (the duplicate rejection of the
spec-modelled thrift codec), and fails `CorruptDir` when a decoded entry has
inode number 0 and an empty hash (the zero-inode half of I1, the hash being
interpreted only there); an entry with a nonzero inode number is accepted
with its hash ignored, even when a non-empty hash is also present, so the
nonzero-inode half of I1 is not enforced. -/
theorem loadOverlayDir_corrupt_dir_amended :
    (∀ (fs : Fs) (n mode : Nat) (od : OverlayDir),
      lookupFs fs n = .file mode (kDirHeader ++ serializeOverlayDir od) →
      (∀ e ∈ od, OverlayEntryWF e) → od.length < 2 ^ 32 →
      ¬ (od.map Prod.fst).Nodup →
      loadOverlayDir fs n = .error .CorruptDir) ∧
    (∀ (fs : Fs) (n mode : Nat) (od : OverlayDir),
      lookupFs fs n = .file mode (kDirHeader ++ serializeOverlayDir od) →
      (∀ e ∈ od, OverlayEntryWF e) → od.length < 2 ^ 32 →
      (od.map Prod.fst).Nodup →
      (∃ p ∈ od, p.2.inodeNumber = 0 ∧ p.2.hash = []) →
      loadOverlayDir fs n = .error .CorruptDir) ∧
    (∀ (mode ino : Nat) (hash : List Nat), ino ≠ 0 →
      entryFromOverlay ⟨mode, ino, hash⟩ = .ok (.materialized mode ino)) := by
  refine ⟨?_, ?_, ?_⟩
  · intro fs n mode od hl hwf hlen hdup
    have hdes := deserializeOverlayDir_dir_header fs n mode _ hl
    rw [deserializeDirBody_serialize_dup od hwf hlen hdup] at hdes
    simp only [loadOverlayDir, hdes]
  · intro fs n mode od hl hwf hlen hnodup hbad
    have hdes := deserializeOverlayDir_dir_header fs n mode _ hl
    rw [deserializeDirBody_serialize od hwf hlen hnodup] at hdes
    simp only [loadOverlayDir, hdes, dirFromOverlay_error_of_bad od hbad]
  · intro mode ino hash hne
    unfold entryFromOverlay
    rw [if_neg hne]

set_option maxRecDepth 100000 in
/-- Witness for C4 (amended): a body with the name `"a"` twice fails
`CorruptDir`; a body whose single entry has inode 0 and empty hash fails
`CorruptDir`; a nonzero-inode entry with non-empty hash converts to a
materialized entry. -/
theorem loadOverlayDir_corrupt_dir_amended_witness :
    loadOverlayDir
        [(3, FileView.file 0o644 (kDirHeader ++ serializeOverlayDir
          [([0x61], OverlayEntry.mk 0o100644 4 []),
           ([0x61], OverlayEntry.mk 0o100644 5 [])]))] 3 =
      .error .CorruptDir ∧
    loadOverlayDir
        [(9, FileView.file 0o644 (kDirHeader ++ serializeOverlayDir
          [([0x62], OverlayEntry.mk 0o100644 0 [])]))] 9 =
      .error .CorruptDir ∧
    entryFromOverlay ⟨0o100644, 6, [0xbb]⟩ =
      .ok (.materialized 0o100644 6) := by
  refine ⟨?_, ?_, ?_⟩
  · exact loadOverlayDir_corrupt_dir_amended.1 _ 3 0o644
      [([0x61], OverlayEntry.mk 0o100644 4 []),
       ([0x61], OverlayEntry.mk 0o100644 5 [])] rfl
      (by decide) (by decide) (by decide)
  · exact loadOverlayDir_corrupt_dir_amended.2.1 _ 9 0o644
      [([0x62], OverlayEntry.mk 0o100644 0 [])] rfl
      (by decide) (by decide) (by decide)
      ⟨([0x62], OverlayEntry.mk 0o100644 0 []), by decide, rfl, rfl⟩
  · exact loadOverlayDir_corrupt_dir_amended.2.2 0o100644 6 [0xbb] (by decide)

theorem dirFromOverlay_all_materialized (od : OverlayDir)
    (h : ∀ p ∈ od, p.2.inodeNumber ≠ 0) :
    dirFromOverlay od =
      .ok (od.map (fun p =>
        (p.1, Entry.materialized p.2.mode p.2.inodeNumber))) := by
  induction od with
  | nil => rfl
  | cons q rest ih =>
    obtain ⟨name, value⟩ := q
    simp only [dirFromOverlay, List.map_cons]
    rw [show entryFromOverlay value =
        .ok (.materialized value.mode value.inodeNumber) from by
      unfold entryFromOverlay
      rw [if_neg (h (name, value) (List.mem_cons_self _ _))]]
    rw [ih (fun p hp => h p (List.mem_cons_of_mem _ hp))]

/-- C10: `load_dir` classifies each decoded entry solely by its inode field:
a nonzero inode number is reported as materialized with the hash bytes
entirely ignored (two entries differing only in their hash decode
identically), and only entries with inode number 0 have their hash
interpreted (as a hash-backed entry). A whole decoded listing of nonzero
entries converts with every hash dropped. -/
theorem loadOverlayDir_classifies_by_inode :
    (∀ (mode ino : Nat) (hash : List Nat), ino ≠ 0 →
      entryFromOverlay ⟨mode, ino, hash⟩ = .ok (.materialized mode ino)) ∧
    (∀ (mode ino : Nat) (hash hash' : List Nat), ino ≠ 0 →
      entryFromOverlay ⟨mode, ino, hash⟩ =
        entryFromOverlay ⟨mode, ino, hash'⟩) ∧
    (∀ (mode : Nat) (hash : List Nat), hash ≠ [] →
      entryFromOverlay ⟨mode, 0, hash⟩ = .ok (.hashBacked mode hash)) ∧
    (∀ od : OverlayDir, (∀ p ∈ od, p.2.inodeNumber ≠ 0) →
      dirFromOverlay od = .ok (od.map (fun p =>
        (p.1, Entry.materialized p.2.mode p.2.inodeNumber)))) := by
  refine ⟨?_, ?_, ?_, ?_⟩
  · intro mode ino hash hne
    unfold entryFromOverlay
    rw [if_neg hne]
  · intro mode ino hash hash' hne
    unfold entryFromOverlay
    rw [if_neg hne, if_neg hne]
  · intro mode hash hne
    unfold entryFromOverlay
    rw [if_pos rfl, if_neg hne]
  · exact dirFromOverlay_all_materialized

/-- Witness for C10: an entry with inode 6 and hash `[0xcc]` is materialized
with the hash dropped, identically to the same entry with hash `[0xdd]`; an
entry with inode 0 and hash `[0xcc]` is hash-backed. -/
theorem loadOverlayDir_classifies_by_inode_witness :
    entryFromOverlay ⟨0o100644, 6, [0xcc]⟩ =
        .ok (.materialized 0o100644 6) ∧
    entryFromOverlay ⟨0o100644, 6, [0xcc]⟩ =
        entryFromOverlay ⟨0o100644, 6, [0xdd]⟩ ∧
    entryFromOverlay ⟨0o100644, 0, [0xcc]⟩ =
        .ok (.hashBacked 0o100644 [0xcc]) := by
  refine ⟨?_, ?_, ?_⟩
  · exact loadOverlayDir_classifies_by_inode.1 0o100644 6 [0xcc] (by decide)
  · exact loadOverlayDir_classifies_by_inode.2.1 0o100644 6 [0xcc] [0xdd]
      (by decide)
  · exact loadOverlayDir_classifies_by_inode.2.2.1 0o100644 [0xcc] (by decide)

set_option maxRecDepth 100000 in
/-- C7: `create_file(n)` fails `Exists` (leaving the state unchanged) when a
file is already present at `path(n)`; on success it creates the file with
mode 0600 whose content is the file-kind header with zero timestamps and
returns a read/write handle positioned exactly past the header
(`kHeaderLength`); and when the header write fails after creation, the
partial file is unlinked so nothing remains at `path(n)`. -/
theorem createOverlayFile_contract :
    (∀ (fs : Fs) (n mode : Nat) (bytes : List Nat) (writeOk : Bool),
      lookupFs fs n = .file mode bytes →
      createOverlayFile fs n writeOk = (.error .Exists, fs)) ∧
    (∀ (fs : Fs) (n : Nat), lookupFs fs n = .missing →
      createOverlayFile fs n true =
        (.ok (n, kHeaderLength), setFs fs n (.file 0o600 kFileHeader)) ∧
      kFileHeader =
        createHeader kHeaderIdentifierFile kHeaderVersion (0, 0) (0, 0) (0, 0)) ∧
    (∀ (fs : Fs) (n : Nat), lookupFs fs n = .missing →
      (createOverlayFile fs n false).1 = .error .Io ∧
      lookupFs (createOverlayFile fs n false).2 n = .missing) := by
  refine ⟨?_, ?_, ?_⟩
  · intro fs n mode bytes writeOk hl
    rw [createOverlayFile, hl]
  · intro fs n hmiss
    refine ⟨?_, rfl⟩
    rw [createOverlayFile, hmiss]
    rfl
  · intro fs n hmiss
    constructor
    · rw [createOverlayFile, hmiss]
      rfl
    · rw [createOverlayFile, hmiss]
      show lookupFs (eraseFs (setFs fs n (FileView.file 0o600 [])) n) n = _
      exact lookupFs_eraseFs_self _ n

/-- Witness for C7: `create_file(4)` fails `Exists` on a state that already
holds a file at 4; on an empty overlay it creates the header file and returns
offset 64; with a failing write nothing remains. -/
theorem createOverlayFile_contract_witness :
    createOverlayFile [(4, FileView.file 0o600 [1])] 4 true =
        (.error .Exists, [(4, FileView.file 0o600 [1])]) ∧
    createOverlayFile [] 4 true =
        (.ok (4, kHeaderLength), setFs [] 4 (.file 0o600 kFileHeader)) ∧
    (createOverlayFile [] 4 false).1 = .error .Io ∧
    lookupFs (createOverlayFile [] 4 false).2 4 = .missing := by
  refine ⟨?_, ?_, ?_, ?_⟩
  · exact createOverlayFile_contract.1 _ 4 0o600 [1] true rfl
  · exact (createOverlayFile_contract.2.1 [] 4 rfl).1
  · exact (createOverlayFile_contract.2.2 [] 4 rfl).1
  · exact (createOverlayFile_contract.2.2 [] 4 rfl).2

/-- C8: an absent per-inode file is never an error for `load_dir` and
`remove`: `load_dir(n)` returns none and `remove(n)` succeeds (removing
nothing) when no file exists at `path(n)`; any other underlying OS error
from the read or the unlink surfaces as `Io`. -/
theorem absent_file_not_error :
    (∀ (fs : Fs) (n : Nat), lookupFs fs n = .missing →
      loadOverlayDir fs n = .ok none ∧
      removeOverlayData fs n = .ok (eraseFs fs n)) ∧
    (∀ (fs : Fs) (n : Nat), lookupFs fs n = .ioFail →
      loadOverlayDir fs n = .error .Io ∧
      removeOverlayData fs n = .error .Io) := by
  constructor
  · intro fs n hl
    constructor
    · simp only [loadOverlayDir, deserializeOverlayDir, hl]
    · rw [removeOverlayData, hl]
  · intro fs n hl
    constructor
    · simp only [loadOverlayDir, deserializeOverlayDir, hl]
    · rw [removeOverlayData, hl]

/-- Witness for C8: on the empty overlay, `load_dir(5)` is none and
`remove(5)` succeeds; on a state where inode 5 fails I/O both surface
`Io`. -/
theorem absent_file_not_error_witness :
    loadOverlayDir [] 5 = .ok none ∧
    removeOverlayData [] 5 = .ok [] ∧
    loadOverlayDir [(5, FileView.ioFail)] 5 = .error .Io ∧
    removeOverlayData [(5, FileView.ioFail)] 5 = .error .Io := by
  refine ⟨?_, ?_, ?_, ?_⟩
  · exact (absent_file_not_error.1 [] 5 rfl).1
  · exact (absent_file_not_error.1 [] 5 rfl).2
  · exact (absent_file_not_error.2 [(5, FileView.ioFail)] 5 rfl).1
  · exact (absent_file_not_error.2 [(5, FileView.ioFail)] 5 rfl).2

/-- The overlay root as `initOverlay` sees it: whether the obsolete `tree`
subdirectory exists, the info file contents (when the file exists), whether
the root directory exists, the subdirectories present at the root, and
whether another holder currently has the info-file lock. -/
structure RootState where
  hasTreeDir : Bool
  info : Option (List Nat)
  rootExists : Bool
  dirs : List String
  lockContended : Bool
deriving DecidableEq, Repr

/-- `Overlay::readExistingOverlay`: read the 8-byte header (a shorter file is
the truncated-info error), verify the 4-byte magic, then extract the
big-endian version and verify it. -/
def readExistingOverlay (content : List Nat) : Except OverlayError Unit :=
  if content.length < kInfoHeaderSize then .error .TruncatedInfo
  else if content.take 4 ≠ kInfoHeaderMagic then .error .CorruptInfo
  else if beDecode ((content.drop 4).take 4) ≠ kOverlayVersion then
    .error .UnsupportedVersion
  else .ok ()

/-- `Overlay::initNewOverlay`: create the overlay root directory and all 256
shard subdirectories (`mkdir`/`mkdirat`, ignoring already-exists in both
cases), then atomically write the info file: the 4 magic bytes followed by
the big-endian u32 version. -/
def initNewOverlay (s : RootState) : RootState :=
  { s with
    rootExists := true,
    dirs := (List.range 256).map formatSubdirPath ++ s.dirs,
    info := some (kInfoHeaderMagic ++ beBytes 4 kOverlayVersion) }

/-- `Overlay::initOverlay`: fail `LegacyFormat` on the obsolete `tree`
subdirectory; open the info file and validate it when it exists, create the
overlay when it does not (for any other open error the code fails, not
modelled beyond the flag); finally take the exclusive whole-file lock with a
non-blocking attempt. `folly::File::try_lock` (`flock LOCK_EX | LOCK_NB`,
folly being external to the repository) is modelled from the spec as the
`lockContended` flag: a contended lock makes open return `AlreadyOpen`
immediately. The result pairs the final root state with the fact that the
returned handle holds the lock. -/
def initOverlay (s : RootState) : Except OverlayError (RootState × Bool) :=
  if s.hasTreeDir then .error .LegacyFormat
  else
    match s.info with
    | some content =>
      match readExistingOverlay content with
      | .error e => .error e
      | .ok _ =>
        if s.lockContended then .error .AlreadyOpen else .ok (s, true)
    | none =>
      let s' := initNewOverlay s
      if s'.lockContended then .error .AlreadyOpen else .ok (s', true)

/-- C5: `open(root)` on a directory with no info file creates the root
directory and all 256 shard subdirectories (ignoring already-exists) and
writes the 8-byte info file atomically: 4 magic bytes `ED E0 00 01` then the
big-endian u32 version 1. On a directory whose info file exists it validates
magic and version: `CorruptInfo` on a magic mismatch and
`UnsupportedVersion` when the version is not 1. -/
theorem initOverlay_info_contract :
    (∀ s : RootState, s.hasTreeDir = false → s.info = none →
      s.lockContended = false →
      initOverlay s = .ok (initNewOverlay s, true) ∧
      (initNewOverlay s).rootExists = true ∧
      (∀ i < 256, formatSubdirPath i ∈ (initNewOverlay s).dirs) ∧
      (initNewOverlay s).info =
        some (kInfoHeaderMagic ++ beBytes 4 kOverlayVersion) ∧
      (kInfoHeaderMagic ++ beBytes 4 kOverlayVersion).length = 8 ∧
      (kInfoHeaderMagic ++ beBytes 4 kOverlayVersion).take 4 =
        kInfoHeaderMagic ∧
      beDecode ((kInfoHeaderMagic ++ beBytes 4 kOverlayVersion).drop 4) =
        kOverlayVersion) ∧
    (∀ (s : RootState) (content : List Nat), s.hasTreeDir = false →
      s.info = some content → content.take 4 ≠ kInfoHeaderMagic →
      kInfoHeaderSize ≤ content.length →
      initOverlay s = .error .CorruptInfo) ∧
    (∀ (s : RootState) (content : List Nat), s.hasTreeDir = false →
      s.info = some content → content.take 4 = kInfoHeaderMagic →
      beDecode ((content.drop 4).take 4) ≠ kOverlayVersion →
      kInfoHeaderSize ≤ content.length →
      initOverlay s = .error .UnsupportedVersion) := by
  refine ⟨?_, ?_, ?_⟩
  · intro s htree hinfo hlock
    refine ⟨?_, rfl, ?_, rfl, by decide, by decide, by decide⟩
    · simp [initOverlay, htree, hinfo, initNewOverlay, hlock]
    · intro i hi
      exact List.mem_append_left _
        (List.mem_map_of_mem formatSubdirPath (List.mem_range.mpr hi))
  · intro s content htree hinfo hmagic hlen
    have hread : readExistingOverlay content = .error .CorruptInfo := by
      rw [readExistingOverlay, if_neg (by omega), if_pos hmagic]
    simp [initOverlay, htree, hinfo, hread]
  · intro s content htree hinfo hmagic hver hlen
    have hread : readExistingOverlay content = .error .UnsupportedVersion := by
      rw [readExistingOverlay, if_neg (by omega), if_neg (by simp [hmagic]),
        if_pos hver]
    simp [initOverlay, htree, hinfo, hread]

/-- Witness for C5: a fresh overlay root; an existing root with a wrong
magic; an existing root with version 2. -/
theorem initOverlay_info_contract_witness :
    initOverlay ⟨false, none, false, [], false⟩ =
        .ok (initNewOverlay ⟨false, none, false, [], false⟩, true) ∧
    initOverlay ⟨false, some [0, 0, 0, 0, 0, 0, 0, 1], true, [], false⟩ =
        .error .CorruptInfo ∧
    initOverlay ⟨false, some [0xed, 0xe0, 0x00, 0x01, 0, 0, 0, 2], true, [],
        false⟩ = .error .UnsupportedVersion := by
  refine ⟨?_, ?_, ?_⟩
  · exact (initOverlay_info_contract.1 ⟨false, none, false, [], false⟩
      rfl rfl rfl).1
  · exact initOverlay_info_contract.2.1 _ [0, 0, 0, 0, 0, 0, 0, 1]
      rfl rfl (by decide) (by decide)
  · exact initOverlay_info_contract.2.2 _ [0xed, 0xe0, 0x00, 0x01, 0, 0, 0, 2]
      rfl rfl (by decide) (by decide) (by decide)

/-- C6: `open` takes the exclusive whole-file advisory lock on the info file
with a non-blocking attempt: when the lock is already held by any other
holder, open returns `AlreadyOpen` immediately (there is no waiting path in
the function), in both the fresh-overlay and the existing-overlay case; and
every successful open returns a handle that holds the lock (held for the
handle's lifetime). -/
theorem initOverlay_lock_contract :
    (∀ s : RootState, s.hasTreeDir = false → s.lockContended = true →
      (s.info = none ∨ ∃ content, s.info = some content ∧
        readExistingOverlay content = .ok ()) →
      initOverlay s = .error .AlreadyOpen) ∧
    (∀ (s s' : RootState) (locked : Bool),
      initOverlay s = .ok (s', locked) → locked = true) := by
  constructor
  · intro s htree hlock hinfo
    rcases hinfo with hnone | ⟨content, hsome, hread⟩
    · simp [initOverlay, htree, hnone, initNewOverlay, hlock]
    · simp [initOverlay, htree, hsome, hread, hlock]
  · intro s s' locked h
    by_cases htree : s.hasTreeDir
    · rw [initOverlay, if_pos htree] at h
      cases h
    · cases hinfo : s.info with
      | some content =>
        cases hread : readExistingOverlay content with
        | error e => simp [initOverlay, htree, hinfo, hread] at h
        | ok u =>
          by_cases hlock : s.lockContended
          · simp [initOverlay, htree, hinfo, hread, hlock] at h
          · simp [initOverlay, htree, hinfo, hread, hlock] at h
            exact h.2
      | none =>
        by_cases hlock : s.lockContended
        · simp [initOverlay, htree, hinfo, initNewOverlay, hlock] at h
        · simp [initOverlay, htree, hinfo, initNewOverlay, hlock] at h
          exact h.2

/-- Witness for C6: a contended lock on a fresh overlay fails `AlreadyOpen`;
an uncontended fresh open succeeds and the handle holds the lock. -/
theorem initOverlay_lock_contract_witness :
    initOverlay ⟨false, none, false, [], true⟩ = .error .AlreadyOpen ∧
    (∀ (s' : RootState) (locked : Bool),
        initOverlay ⟨false, none, false, [], false⟩ = .ok (s', locked) →
        locked = true) ∧
    initOverlay ⟨false, none, false, [], false⟩ =
      .ok (initNewOverlay ⟨false, none, false, [], false⟩, true) := by
  refine ⟨?_, ?_, ?_⟩
  · exact initOverlay_lock_contract.1 ⟨false, none, false, [], true⟩
      rfl rfl (Or.inl rfl)
  · intro s' locked h
    exact initOverlay_lock_contract.2 ⟨false, none, false, [], false⟩
      s' locked h
  · rfl
